import Mathlib

/-!
# Verification of the climark CLI tool (cli.py / markd.py)

A shallow embedding of the `climark` repository: a small CLI that walks a
project tree, sends each Python file to a local LLM, post-processes the
response (`clean_code`), and writes test files (`cli.py`) or one aggregate
markdown document (`markd.py`).

Python strings are modelled as `List Char`; `str.splitlines()` and
`str.strip()` are embedded with their documented Python semantics
(universal line boundaries, Unicode whitespace).  The external model call
is modelled as an `Except` value supplied as input: `.ok response` when the
call returns text, `.error e` when it raises.  The filesystem is modelled
as an event log of directory creations and file writes.
-/

set_option autoImplicit false

/-- Python strings, modelled as lists of characters. -/
abbrev Str := List Char

/-- Convert a Lean string literal to the `Str` model. -/
def str (s : String) : Str := s.toList

/-- The characters that `str.splitlines` treats as line boundaries
(Python's universal newlines: LF, CR, VT, FF, FS, GS, RS, NEL, LS, PS;
CRLF is handled as a single boundary in `splitlinesAux`). -/
def pyLineBreak (c : Char) : Bool :=
  c = '\n' || c = '\r' || c = '\x0b' || c = '\x0c' || c = '\x1c' ||
  c = '\x1d' || c = '\x1e' || c = '\x85' || c = '\u2028' || c = '\u2029'

/-- The characters that Python's `str.strip()` (no argument) removes:
`str.isspace` characters. -/
def pySpace (c : Char) : Bool :=
  c = ' ' || c = '\t' || c = '\n' || c = '\r' || c = '\x0b' || c = '\x0c' ||
  c = '\x1c' || c = '\x1d' || c = '\x1e' || c = '\x1f' || c = '\x85' ||
  c = '\xa0' || c = '\u1680' ||
  c = '\u2000' || c = '\u2001' || c = '\u2002' || c = '\u2003' ||
  c = '\u2004' || c = '\u2005' || c = '\u2006' || c = '\u2007' ||
  c = '\u2008' || c = '\u2009' || c = '\u200a' ||
  c = '\u2028' || c = '\u2029' || c = '\u202f' || c = '\u205f' || c = '\u3000'

/-- Python `str.strip()`: drop leading and trailing whitespace. -/
def pyStrip (s : Str) : Str :=
  ((s.dropWhile pySpace).reverse.dropWhile pySpace).reverse

/-- Worker for `splitlines`: `acc` holds the current line, reversed.
A CR immediately followed by LF is one line boundary.  A boundary at the
very end of the text does not open a new (empty) final line, matching
Python's `splitlines`. -/
def splitlinesAux (acc : Str) : Str → List Str
  | [] => [acc.reverse]
  | c :: rest =>
    if pyLineBreak c then
      match rest with
      | [] => [acc.reverse]
      | c2 :: rest2 =>
        if c = '\r' ∧ c2 = '\n' then
          match rest2 with
          | [] => [acc.reverse]
          | _ :: _ => acc.reverse :: splitlinesAux [] rest2
        else
          acc.reverse :: splitlinesAux [] (c2 :: rest2)
    else
      splitlinesAux (c :: acc) rest

/-- Python `str.splitlines()` (without keepends). -/
def splitlines (s : Str) : List Str :=
  if s = [] then [] else splitlinesAux [] s

/-- The opening fence marker removed by `clean_code`. -/
def fenceOpen : Str := str "```python"

/-- The closing fence marker removed by `clean_code`. -/
def fenceClose : Str := str "```"

/-- The per-line keep test of `clean_code`:
`line.strip() not in ['```python', '```']`. -/
def keepLine (l : Str) : Bool :=
  !(pyStrip l == fenceOpen || pyStrip l == fenceClose)

/-- Python join with a newline separator, on a list of lines. -/
def joinNl : List Str → Str
  | [] => []
  | [l] => l
  | l :: l2 :: ls => l ++ '\n' :: joinNl (l2 :: ls)

/-- Embedding of `clean_code` from `cli.py` lines 54-60 and `markd.py` lines 59-65
(both files contain the identical function):
`"\n".join(line for line in text.splitlines() if line.strip() not in
['```python', '```'])`. -/
def clean_code (text : Str) : Str :=
  joinNl ((splitlines text).filter keepLine)

/-- The lines of `text` that survive `clean_code`'s filter. -/
def keptLines (text : Str) : List Str :=
  (splitlines text).filter keepLine

/-- Modelled from the spec's words (section 4.4): remove exactly those
lines whose trimmed content is the opening or the closing fence marker,
keep every other line verbatim and in order. -/
def removeFenceLines : List Str → List Str
  | [] => []
  | l :: ls =>
    if pyStrip l = fenceOpen ∨ pyStrip l = fenceClose then removeFenceLines ls
    else l :: removeFenceLines ls

/-- Modelled from the spec's words (section 4.4): the sanitizer contract,
built from `removeFenceLines` and rejoining with newlines. -/
def sanitizeSpec (text : Str) : Str :=
  joinNl (removeFenceLines (splitlines text))

example : clean_code (str "```python\nx = 1\n```") = str "x = 1" := by decide
example : clean_code (str "  ```") = ([] : Str) := by decide
example : clean_code (str "\n\n") = str "\n" := by decide
example : clean_code (str "\n") = ([] : Str) := by decide
example : splitlines (str "a\r\nb") = [str "a", str "b"] := by decide
example : splitlines (str "a\r\n") = [str "a"] := by decide

/-! ## Lemmas about the sanitizer -/

theorem keepLine_eq_true_iff (l : Str) :
    keepLine l = true ↔ ¬(pyStrip l = fenceOpen ∨ pyStrip l = fenceClose) := by
  simp [keepLine, not_or]

theorem removeFenceLines_eq_filter (ls : List Str) :
    removeFenceLines ls = ls.filter keepLine := by
  induction ls with
  | nil => rfl
  | cons l ls ih =>
    by_cases h : pyStrip l = fenceOpen ∨ pyStrip l = fenceClose
    · have hk : keepLine l = false := by
        rcases h with h | h <;> simp [keepLine, h]
      rw [removeFenceLines, if_pos h, ih, List.filter_cons, hk]
      simp
    · have hk : keepLine l = true := (keepLine_eq_true_iff l).mpr h
      rw [removeFenceLines, if_neg h, ih, List.filter_cons, hk]
      simp


theorem splitlinesAux_nil_eq (acc : Str) : splitlinesAux acc [] = [acc.reverse] := rfl

theorem splitlinesAux_cons_nobreak (acc : Str) (c : Char) (rest : Str)
    (hc : pyLineBreak c = false) :
    splitlinesAux acc (c :: rest) = splitlinesAux (c :: acc) rest := by
  rw [splitlinesAux.eq_def]
  simp [hc]

theorem splitlinesAux_break_last (acc : Str) (c : Char)
    (hc : pyLineBreak c = true) :
    splitlinesAux acc [c] = [acc.reverse] := by
  rw [splitlinesAux.eq_def]
  simp [hc]

theorem splitlinesAux_break_cons (acc : Str) (c c2 : Char) (rest2 : Str)
    (hc : pyLineBreak c = true) (hcr : ¬(c = '\r' ∧ c2 = '\n')) :
    splitlinesAux acc (c :: c2 :: rest2) =
      acc.reverse :: splitlinesAux [] (c2 :: rest2) := by
  rw [splitlinesAux.eq_def]
  simp [hc, hcr]

theorem splitlinesAux_crlf_last (acc : Str) :
    splitlinesAux acc ['\r', '\n'] = [acc.reverse] := by
  rw [splitlinesAux.eq_def]
  simp [pyLineBreak]

theorem splitlinesAux_crlf_cons (acc : Str) (c3 : Char) (rest3 : Str) :
    splitlinesAux acc ('\r' :: '\n' :: c3 :: rest3) =
      acc.reverse :: splitlinesAux [] (c3 :: rest3) := by
  rw [splitlinesAux.eq_def]
  simp [pyLineBreak]

theorem splitlinesAux_of_nobreak (l : Str) : ∀ acc : Str,
    (∀ c ∈ l, pyLineBreak c = false) →
    splitlinesAux acc l = [acc.reverse ++ l] := by
  induction l with
  | nil => intro acc _; simp [splitlinesAux_nil_eq]
  | cons c rest ih =>
    intro acc hl
    have hc : pyLineBreak c = false := hl c (List.mem_cons_self c rest)
    have hrest : ∀ c' ∈ rest, pyLineBreak c' = false :=
      fun c' hc' => hl c' (List.mem_cons_of_mem c hc')
    rw [splitlinesAux_cons_nobreak acc c rest hc, ih (c :: acc) hrest]
    simp

theorem splitlinesAux_append_newline (l : Str) : ∀ acc rest : Str,
    (∀ c ∈ l, pyLineBreak c = false) → rest ≠ [] →
    splitlinesAux acc (l ++ '\n' :: rest) =
      (acc.reverse ++ l) :: splitlinesAux [] rest := by
  induction l with
  | nil =>
    intro acc rest _ hrest
    match rest, hrest with
    | c2 :: rest2, _ =>
      rw [List.nil_append,
        splitlinesAux_break_cons acc '\n' c2 rest2 (by decide)
          (fun h => absurd h.1 (by decide))]
      simp
  | cons c l ih =>
    intro acc rest hl hrest
    have hc : pyLineBreak c = false := hl c (List.mem_cons_self c l)
    have hl' : ∀ c' ∈ l, pyLineBreak c' = false :=
      fun c' hc' => hl c' (List.mem_cons_of_mem c hc')
    rw [List.cons_append, splitlinesAux_cons_nobreak acc c _ hc,
      ih (c :: acc) rest hl' hrest]
    simp

theorem splitlinesAux_lines_nobreak : ∀ (n : Nat) (s : Str), s.length ≤ n →
    ∀ acc : Str, (∀ c ∈ acc, pyLineBreak c = false) →
    ∀ l ∈ splitlinesAux acc s, ∀ c ∈ l, pyLineBreak c = false := by
  intro n
  induction n with
  | zero =>
    intro s hs acc hacc l hl c hc
    have : s = [] := List.length_eq_zero.mp (Nat.le_zero.mp hs)
    subst this
    rw [splitlinesAux_nil_eq] at hl
    rcases List.mem_singleton.mp hl with rfl
    exact hacc c (List.mem_reverse.mp hc)
  | succ n ih =>
    intro s hs acc hacc l hl c hc
    match s with
    | [] =>
      rw [splitlinesAux_nil_eq] at hl
      rcases List.mem_singleton.mp hl with rfl
      exact hacc c (List.mem_reverse.mp hc)
    | c1 :: rest =>
      by_cases hb : pyLineBreak c1 = true
      · match rest with
        | [] =>
          rw [splitlinesAux_break_last acc c1 hb] at hl
          rcases List.mem_singleton.mp hl with rfl
          exact hacc c (List.mem_reverse.mp hc)
        | c2 :: rest2 =>
          by_cases hcr : c1 = '\r' ∧ c2 = '\n'
          · rcases hcr with ⟨rfl, rfl⟩
            match rest2 with
            | [] =>
              rw [splitlinesAux_crlf_last acc] at hl
              rcases List.mem_singleton.mp hl with rfl
              exact hacc c (List.mem_reverse.mp hc)
            | c3 :: rest3 =>
              rw [splitlinesAux_crlf_cons acc c3 rest3] at hl
              rcases List.mem_cons.mp hl with rfl | hl'
              · exact hacc c (List.mem_reverse.mp hc)
              · have hlen : (c3 :: rest3).length ≤ n := by
                  simp only [List.length_cons] at hs ⊢
                  omega
                exact ih (c3 :: rest3) hlen [] (by simp) l hl' c hc
          · rw [splitlinesAux_break_cons acc c1 c2 rest2 hb hcr] at hl
            rcases List.mem_cons.mp hl with rfl | hl'
            · exact hacc c (List.mem_reverse.mp hc)
            · have hlen : (c2 :: rest2).length ≤ n := by
                simp only [List.length_cons] at hs ⊢
                omega
              exact ih (c2 :: rest2) hlen [] (by simp) l hl' c hc
      · rw [splitlinesAux_cons_nobreak acc c1 rest (Bool.not_eq_true _ ▸ hb)] at hl
        have hlen : rest.length ≤ n := by
          simp only [List.length_cons] at hs
          omega
        have hacc' : ∀ c' ∈ c1 :: acc, pyLineBreak c' = false := by
          intro c' hc'
          rcases List.mem_cons.mp hc' with rfl | hc'
          · exact Bool.not_eq_true _ ▸ hb
          · exact hacc c' hc'
        exact ih rest hlen (c1 :: acc) hacc' l hl c hc

theorem splitlines_lines_nobreak (s : Str) :
    ∀ l ∈ splitlines s, ∀ c ∈ l, pyLineBreak c = false := by
  intro l hl c hc
  rw [splitlines] at hl
  by_cases hs : s = []
  · rw [if_pos hs] at hl
    exact absurd hl (List.not_mem_nil l)
  · rw [if_neg hs] at hl
    exact splitlinesAux_lines_nobreak s.length s (Nat.le_refl _) [] (by simp) l hl c hc

theorem joinNl_ne_nil (ls : List Str) (h1 : ls ≠ [])
    (h2 : ls.getLast? ≠ some ([] : Str)) : joinNl ls ≠ [] := by
  match ls with
  | [l] =>
    have : l ≠ [] := by
      intro hl
      exact h2 (by rw [hl]; rfl)
    simpa [joinNl] using this
  | l :: l2 :: ls2 =>
    simp [joinNl]

theorem splitlines_joinNl (ls : List Str)
    (hnb : ∀ l ∈ ls, ∀ c ∈ l, pyLineBreak c = false)
    (hlast : ls.getLast? ≠ some ([] : Str)) :
    splitlines (joinNl ls) = ls := by
  induction ls with
  | nil => rfl
  | cons l ls ih =>
    match ls with
    | [] =>
      have hl : l ≠ [] := by
        intro h
        exact hlast (by rw [h]; rfl)
      rw [show joinNl [l] = l from rfl, splitlines, if_neg hl,
        splitlinesAux_of_nobreak l [] (hnb l (List.mem_cons_self l []))]
      rfl
    | l2 :: ls2 =>
      have hrest : joinNl (l2 :: ls2) ≠ [] := by
        apply joinNl_ne_nil (l2 :: ls2) (List.cons_ne_nil l2 ls2)
        rwa [List.getLast?_cons_cons] at hlast
      have hnb' : ∀ l' ∈ l2 :: ls2, ∀ c ∈ l', pyLineBreak c = false :=
        fun l' hl' => hnb l' (List.mem_cons_of_mem l hl')
      have hlast' : (l2 :: ls2).getLast? ≠ some ([] : Str) := by
        rwa [List.getLast?_cons_cons] at hlast
      rw [show joinNl (l :: l2 :: ls2) = l ++ '\n' :: joinNl (l2 :: ls2) from rfl,
        splitlines, if_neg (by simp),
        splitlinesAux_append_newline l [] (joinNl (l2 :: ls2))
          (hnb l (List.mem_cons_self l _)) hrest]
      have ihres := ih hnb' hlast'
      rw [splitlines, if_neg hrest] at ihres
      rw [ihres]
      rfl

/-! ## Claim C1: the sanitizer removes exactly the fence-marker lines -/

/-- C1: for every input text, `clean_code` removes exactly those lines whose
trimmed content is the opening fence marker or the closing fence marker;
every other line is preserved verbatim and in its original order (the kept
lines form a sublist of the input lines), and the remaining lines are
rejoined with newlines.  Stated as a refinement: `clean_code` equals the
spec-worded sanitizer `sanitizeSpec`. -/
theorem sanitizer_removes_exactly_fence_marker_lines (text : Str) :
    clean_code text = sanitizeSpec text ∧
    List.Sublist (removeFenceLines (splitlines text)) (splitlines text) := by
  constructor
  · rw [clean_code, sanitizeSpec, removeFenceLines_eq_filter]
  · rw [removeFenceLines_eq_filter]
    exact List.filter_sublist _

/-! ## Claim C2: idempotence of the sanitizer -/

/-- C2 counterexample: `clean_code` is not idempotent.  On the input
`"\n\n"` (two newlines, no fences at all) a first application yields
`"\n"` and a second application yields `""`: the `splitlines`/`join`
round trip drops a trailing empty line. -/
theorem sanitizer_not_idempotent_on_trailing_newlines :
    clean_code (clean_code (str "\n\n")) ≠ clean_code (str "\n\n") := by decide

/-- C2 as amended: applying `clean_code` twice yields the same result as
applying it once, provided the list of surviving lines does not end with an
empty line (equivalently, the once-sanitized text does not end in a
newline).  Without that proviso a trailing empty kept line is dropped by
the second application. -/
theorem sanitizer_idempotent_without_trailing_empty_line (text : Str)
    (h : (keptLines text).getLast? ≠ some ([] : Str)) :
    clean_code (clean_code text) = clean_code text := by
  have hkept : ∀ l ∈ keptLines text, ∀ c ∈ l, pyLineBreak c = false :=
    fun l hl => splitlines_lines_nobreak text l (List.mem_of_mem_filter hl)
  have hsp : splitlines (joinNl (keptLines text)) = keptLines text :=
    splitlines_joinNl _ hkept h
  have h1 : clean_code text = joinNl (keptLines text) := rfl
  rw [h1, clean_code, hsp]
  congr 1
  apply List.filter_eq_self.mpr
  intro l hl
  exact List.of_mem_filter hl

/-- Witness for the amended C2 at the concrete input `"x = 1"`. -/
theorem sanitizer_idempotent_witness :
    (keptLines (str "x = 1")).getLast? ≠ some ([] : Str) ∧
    clean_code (clean_code (str "x = 1")) = clean_code (str "x = 1") :=
  ⟨by decide, sanitizer_idempotent_without_trailing_empty_line (str "x = 1") (by decide)⟩

/-! ## Claim C3: fence lines with annotations or indentation -/

/-- C3 counterexample: a fence line with leading indentation IS removed by
`clean_code`, because membership is tested on the trimmed line: the input
`"  ```"` (an indented closing fence) sanitizes to the empty string rather
than surviving unchanged. -/
theorem indented_fence_line_is_removed :
    clean_code (str "  ```") = ([] : Str) ∧ str "  ```" ≠ ([] : Str) := by decide

/-- C3 as amended: a line whose trimmed content is not exactly the opening
or closing fence marker (in particular a fence with trailing annotations,
such as a different language tag or trailing words) survives verbatim among
the kept lines; but a bare fence marker with only leading or trailing
whitespace is removed, since the comparison strips the line first. -/
theorem annotated_fence_lines_survive (text : Str) (l : Str)
    (hmem : l ∈ splitlines text) :
    l ∈ keptLines text ↔ (pyStrip l ≠ fenceOpen ∧ pyStrip l ≠ fenceClose) := by
  rw [keptLines, List.mem_filter]
  simp [hmem, keepLine_eq_true_iff, not_or]

/-- Witness for the amended C3 at the concrete line ``` haskell (a fence
with a trailing annotation), which survives sanitization. -/
theorem annotated_fence_lines_survive_witness :
    (str "``` haskell" ∈ splitlines (str "``` haskell")) ∧
    (str "``` haskell" ∈ keptLines (str "``` haskell") ↔
      (pyStrip (str "``` haskell") ≠ fenceOpen ∧
        pyStrip (str "``` haskell") ≠ fenceClose)) :=
  ⟨by decide, annotated_fence_lines_survive (str "``` haskell") (str "``` haskell")
    (by decide)⟩

/-! ## Embedding of the cli.py orchestration

The filesystem and the log are modelled as an event log: `mkdirs` records
each `os.makedirs` call, `writes` records each file write as a
(path, content) pair (a later write to the same path overwrites), and
`errors` records each `logger.error` line.  The external model call of
`chain.invoke` is an input of type `Except Str Str`: `.ok response` when
the call returns, `.error e` when it raises (with `e` the text of the
exception).  `os.path.join` is modelled as joining with a slash. -/

deriving instance DecidableEq for Except

structure St where
  writes : List (Str × Str)
  mkdirs : List Str
  errors : List Str
deriving DecidableEq, Repr

/-- The empty initial state. -/
def st0 : St := ⟨[], [], []⟩

/-- One file met during traversal: its name, the outcome of reading it
(`.ok code` or `.error e` if `open`/`read` raises), and the outcome of the
model call made for it. -/
structure FileEntry where
  name : Str
  read : Except Str Str
  modelCall : Except Str Str
deriving DecidableEq, Repr

/-- One directory produced by `os.walk`: its path relative to the project
root, and the files it directly contains, in listing order. -/
structure CliDir where
  root : Str
  files : List FileEntry
deriving DecidableEq, Repr

/-- Embedding of `os.path.join`, for the paths this tool builds. -/
def pathJoin (a b : Str) : Str := a ++ '/' :: b

/-- Embedding of `os.path.splitext(name)[0]`: everything before the last dot, except
that a basename consisting of leading dots only is not split. -/
def splitext_stem (name : Str) : Str :=
  if name.contains '.' then
    let k := name.length - 1 - (name.reverse.indexOf '.')
    if (name.take k).all (fun c => c = '.') then name else name.take k
  else name

example : splitext_stem (str "x.py") = str "x" := by decide
example : splitext_stem (str "a.b.py") = str "a.b" := by decide
example : splitext_stem (str ".py") = str ".py" := by decide

/-- The output path used by `save_test_cases` (cli.py lines 62-69):
`<project_path>/tests/test_<stem>.py`.  Only the base name of the input
file enters the path; its directory does not. -/
def test_file_path (project_path file_name : Str) : Str :=
  pathJoin (pathJoin project_path (str "tests"))
    (str "test_" ++ splitext_stem file_name ++ str ".py")

/-- Embedding of `generate_test_cases` (cli.py lines 40-52): on a successful model call
return the sanitized response; when the call raises, log the error and
return the placeholder string `"Error: <e>"` in place of model output.
Returns the updated log state together with the returned string. -/
def generate_test_cases (st : St) (modelCall : Except Str Str) : St × Str :=
  match modelCall with
  | .ok response => (st, clean_code response)
  | .error e =>
    ({ st with errors := st.errors ++ [str "Error generating test cases: " ++ e] },
      str "Error: " ++ e)

/-- Embedding of `save_test_cases` (cli.py lines 62-75): ensure `<project>/tests`
exists, then write the test code to `test_<stem>.py` there.  The write is
modelled as succeeding. -/
def save_test_cases (file_name test_code project_path : Str) (st : St) : St :=
  { st with
    mkdirs := st.mkdirs ++ [pathJoin project_path (str "tests")],
    writes := st.writes ++ [(test_file_path project_path file_name, test_code)] }

/-- The body of the per-file loop of `process_project` (cli.py lines
28-38): skip files whose name does not end in `.py`; on a read failure log
the error and continue; otherwise generate (possibly a placeholder error
string) and save. -/
def processFile (project_path dir_root : Str) (st : St) (f : FileEntry) : St :=
  if (str ".py").isSuffixOf f.name then
    match f.read with
    | .error e =>
      { st with errors := st.errors ++
          [str "Error processing " ++ pathJoin dir_root f.name ++ str ": " ++ e] }
    | .ok _code =>
      let p := generate_test_cases st f.modelCall
      save_test_cases f.name p.2 project_path p.1
  else st

/-- Embedding of `process_project` from cli.py lines 21-38: the `os.walk` enumeration is
taken as input (a list of directories, each with its files in listing
order), and every file of every directory is processed in order. -/
def cli_process_project (project_path : Str) (dirs : List CliDir) (st : St) : St :=
  dirs.foldl (fun acc d => d.files.foldl (processFile project_path d.root) acc) st

/-- Embedding of `create_pytest_ini_with_llm` (cli.py lines 77-96): one further model
call; on success write the sanitized response to `<tests_folder>/pytest.ini`,
on failure only log. -/
def create_pytest_ini_with_llm (cfgCall : Except Str Str) (tests_folder : Str)
    (st : St) : St :=
  match cfgCall with
  | .ok response =>
    { st with writes := st.writes ++
        [(pathJoin tests_folder (str "pytest.ini"), clean_code response)] }
  | .error e =>
    { st with errors := st.errors ++ [str "Error creating pytest.ini: " ++ e] }

/-- Embedding of `generate_tests_cli` (cli.py lines 111-120): validate that the project
path exists (`path_exists` models `os.path.exists`); when it does not, log
one error and return; otherwise process the project and generate the
pytest.ini. -/
def generate_tests_cli (project_path : Str) (path_exists : Bool)
    (dirs : List CliDir) (cfgCall : Except Str Str) (st : St) : St :=
  if path_exists then
    create_pytest_ini_with_llm cfgCall (pathJoin project_path (str "tests"))
      (cli_process_project project_path dirs st)
  else
    { st with errors := st.errors ++
        [str "Path " ++ project_path ++ str " does not exist."] }

/-- The result of one pytest invocation, as `validate_tests` returns it:
captured standard output, standard error, and the exit status. -/
structure ValidationResult where
  stdout : Str
  stderr : Str
  returncode : Int
deriving DecidableEq, Repr

/-- Embedding of `validate_tests` (cli.py lines 98-109): invoke pytest on
the folder (the behaviour of the external `subprocess.run` is the input
`pytestRun`, mapping a folder to its captured result) and return its
stdout, stderr and return code. -/
def validate_tests (pytestRun : Str → ValidationResult) (test_folder : Str) :
    ValidationResult :=
  pytestRun test_folder

/-- Embedding of `validate_tests_cli` (cli.py lines 122-135): check that
`<project_path>/tests` exists (`tests_path_exists` models
`os.path.exists` of that path; when the project path itself does not
exist, no child of it exists either, so this flag is then false); when it
is missing, log one error and return; otherwise run pytest and print the
captured output.  The second component of the result is the list of
printed lines; the command never writes to the filesystem. -/
def validate_tests_cli (project_path : Str) (tests_path_exists : Bool)
    (pytestRun : Str → ValidationResult) (st : St) : St × List Str :=
  if tests_path_exists then
    let validation_result := validate_tests pytestRun (pathJoin project_path (str "tests"))
    (st, [str "Validation Results:", validation_result.stdout] ++
      (if validation_result.stderr ≠ [] then
        [str "\nErrors:", validation_result.stderr] else []))
  else
    ({ st with errors := st.errors ++
        [str "Tests folder " ++ pathJoin project_path (str "tests") ++
          str " does not exist."] }, [])

/-! ## Embedding of the markd.py orchestration

`process_project` in markd.py builds a list `project_summary` of string
entries: one `"## Directory: <rel>\n"` entry per directory visited by
`os.walk`, and, per `.py` file that is read successfully, the string
returned by `generate_markdown_document` (a headed section on model
success, the placeholder `"Error: <e>"` when the model call raises).
Debug/info log lines during traversal are not modelled; no claim concerns
them. -/

structure MdFile where
  name : Str
  read : Except Str Str
  modelCall : Except Str Str
deriving DecidableEq, Repr

structure MdDir where
  root : Str
  files : List MdFile
deriving DecidableEq, Repr

/-- The text of an `.ok` model response (only used under a hypothesis that
the call succeeded). -/
def okText : Except Str Str → Str
  | .ok r => r
  | .error _ => []

/-- Embedding of `generate_markdown_document` (markd.py lines 45-57): on model success
return the headed section `"### <name>\n\n<sanitized>\n"`; when the model
call raises, log and return the placeholder `"Error: <e>"`. -/
def generate_markdown_document (modelCall : Except Str Str) (file_name : Str) : Str :=
  match modelCall with
  | .ok response => str "### " ++ file_name ++ str "\n\n" ++ clean_code response ++ str "\n"
  | .error e => str "Error: " ++ e

/-- The summary entries contributed by one file in markd's
`process_project` loop: nothing for a non-`.py` file, nothing when the
read raises (logged and skipped), otherwise the string returned by
`generate_markdown_document`. -/
def mdFileEntries (f : MdFile) : List Str :=
  if (str ".py").isSuffixOf f.name then
    match f.read with
    | .error _ => []
    | .ok _ => [generate_markdown_document f.modelCall f.name]
  else []

/-- The summary entries contributed by a list of files, in listing order. -/
def mdFilesEntries : List MdFile → List Str
  | [] => []
  | f :: fs => mdFileEntries f ++ mdFilesEntries fs

/-- The summary entries contributed by one visited directory: its
`"## Directory: <rel>\n"` heading (appended unconditionally, markd.py line
29) followed by its files' entries. -/
def mdDirEntries (d : MdDir) : List Str :=
  (str "## Directory: " ++ d.root ++ str "\n") :: mdFilesEntries d.files

/-- The `project_summary` list built by markd's `process_project`
(lines 26-41), over the whole traversal. -/
def project_summary : List MdDir → List Str
  | [] => []
  | d :: ds => mdDirEntries d ++ project_summary ds

/-- The path of the aggregate document:
`<project_path>/docs/project_documentation.md`. -/
def docs_file_path (project_path : Str) : Str :=
  pathJoin (pathJoin project_path (str "docs")) (str "project_documentation.md")

/-- Embedding of `save_markdown_document` (markd.py lines 67-79): ensure
`<project>/docs` exists and write the aggregate document there.  The write
is modelled as succeeding. -/
def save_markdown_document (markdown_content project_path : Str) (st : St) : St :=
  { st with
    mkdirs := st.mkdirs ++ [pathJoin project_path (str "docs")],
    writes := st.writes ++ [(docs_file_path project_path, markdown_content)] }

/-- Embedding of `process_project` from markd.py lines 21-43: build the summary over
the traversal, join it with newlines, and save it as one document. -/
def md_process_project (project_path : Str) (dirs : List MdDir) (st : St) : St :=
  save_markdown_document (joinNl (project_summary dirs)) project_path st

/-- Embedding of `generate_docs_cli` (markd.py lines 81-89): validate that the project
path exists; when it does not, log one error and return; otherwise process
the project. -/
def generate_docs_cli (project_path : Str) (path_exists : Bool)
    (dirs : List MdDir) (st : St) : St :=
  if path_exists then
    md_process_project project_path dirs st
  else
    { st with errors := st.errors ++
        [str "Path " ++ project_path ++ str " does not exist."] }

/-! ## Embedding of the two argparse dispatchers

`main` in cli.py registers subcommands `generate-tests` and
`validate-tests`; `main` in markd.py registers `generate-docs`.  The
subcommand is optional (`add_subparsers` without `required=True`), so no
command yields `args.command = None` and falls to the `else` branch, which
prints help and returns normally.  An *unknown* command name, however, is
rejected by argparse itself (`invalid choice`), which prints a usage error
and exits with status 2 before any handler runs; this documented argparse
behaviour is part of the model. -/

inductive DispatchResult where
  | ranGenerateTests (project_path : Str)
  | ranValidateTests (project_path : Str)
  | ranGenerateDocs (project_path : Str)
  | printedHelp
  | usageError (exit_code : Nat)
deriving DecidableEq, Repr

/-- Embedding of `main` from cli.py lines 137-162, at the level of which handler runs. -/
def cli_main (command : Option Str) (project_path : Str) : DispatchResult :=
  match command with
  | none => .printedHelp
  | some c =>
    if c ≠ str "generate-tests" ∧ c ≠ str "validate-tests" then .usageError 2
    else if c = str "generate-tests" then .ranGenerateTests project_path
    else .ranValidateTests project_path

/-- Embedding of `main` from markd.py lines 91-108, at the level of which handler runs. -/
def markd_main (command : Option Str) (project_path : Str) : DispatchResult :=
  match command with
  | none => .printedHelp
  | some c =>
    if c ≠ str "generate-docs" then .usageError 2
    else .ranGenerateDocs project_path

/-! ## Claim C4: a model error becomes a placeholder artifact on disk -/

/-- C4: whenever the model call raises during test generation,
`generate_test_cases` returns the placeholder string `"Error: <e>"`
instead of model output, and `save_test_cases` then writes exactly that
string to the output test file as if it were generated code. -/
theorem model_error_written_as_artifact (e file_name project_path : Str) (st : St) :
    (generate_test_cases st (.error e)).2 = str "Error: " ++ e ∧
    (save_test_cases file_name (generate_test_cases st (.error e)).2 project_path
        (generate_test_cases st (.error e)).1).writes =
      st.writes ++ [(test_file_path project_path file_name, str "Error: " ++ e)] := by
  constructor
  · rfl
  · simp [generate_test_cases, save_test_cases]

/-! ## Claim C5: a failure on one file does not stop the run -/

theorem processFile_writes_mono (pp r : Str) (st : St) (f : FileEntry)
    (x : Str × Str) (hx : x ∈ st.writes) : x ∈ (processFile pp r st f).writes := by
  rw [processFile]
  split
  · match f.read with
    | .error e => simpa using hx
    | .ok code =>
      cases hm : f.modelCall <;>
        simp [generate_test_cases, save_test_cases, hm] <;>
        exact Or.inl hx
  · exact hx

theorem files_foldl_writes_mono (pp r : Str) (fs : List FileEntry) :
    ∀ (st : St) (x : Str × Str), x ∈ st.writes →
      x ∈ (fs.foldl (processFile pp r) st).writes := by
  induction fs with
  | nil => intro st x hx; exact hx
  | cons f fs ih =>
    intro st x hx
    exact ih (processFile pp r st f) x (processFile_writes_mono pp r st f x hx)

theorem dirs_foldl_writes_mono (pp : Str) (dirs : List CliDir) :
    ∀ (st : St) (x : Str × Str), x ∈ st.writes →
      x ∈ (cli_process_project pp dirs st).writes := by
  induction dirs with
  | nil => intro st x hx; exact hx
  | cons d dirs ih =>
    intro st x hx
    exact ih _ x (files_foldl_writes_mono pp d.root d.files st x hx)

theorem processFile_writes_self (pp r : Str) (st : St) (f : FileEntry)
    (hpy : (str ".py").isSuffixOf f.name = true) (hread : f.read.isOk = true) :
    ∃ c, (test_file_path pp f.name, c) ∈ (processFile pp r st f).writes := by
  rw [processFile, if_pos hpy]
  match hr : f.read with
  | .error e => rw [hr] at hread; simp [Except.isOk, Except.toBool] at hread
  | .ok code =>
    match hm : f.modelCall with
    | .ok resp =>
      exact ⟨clean_code resp, by simp [generate_test_cases, save_test_cases, hm]⟩
    | .error e =>
      exact ⟨str "Error: " ++ e, by simp [generate_test_cases, save_test_cases, hm]⟩

theorem files_foldl_writes_self (pp r : Str) (fs : List FileEntry) :
    ∀ (st : St) (f : FileEntry), f ∈ fs →
      (str ".py").isSuffixOf f.name = true → f.read.isOk = true →
      ∃ c, (test_file_path pp f.name, c) ∈ (fs.foldl (processFile pp r) st).writes := by
  induction fs with
  | nil => intro st f hf; exact absurd hf (List.not_mem_nil f)
  | cons g fs ih =>
    intro st f hf hpy hread
    rcases List.mem_cons.mp hf with rfl | hf'
    · obtain ⟨c, hc⟩ := processFile_writes_self pp r st f hpy hread
      exact ⟨c, files_foldl_writes_mono pp r fs _ _ hc⟩
    · exact ih (processFile pp r st g) f hf' hpy hread

/-- C5: for every run of test generation over a traversal, every `.py`
file whose read succeeds is written to its output path, regardless of
model-call failures (which produce a placeholder write for that file) or
read failures (which skip only that file) anywhere else in the run: a
failure on one file never stops the processing of the remaining files. -/
theorem failure_does_not_stop_run (pp : Str) (dirs : List CliDir) (st : St)
    (d : CliDir) (f : FileEntry) (hd : d ∈ dirs) (hf : f ∈ d.files)
    (hpy : (str ".py").isSuffixOf f.name = true) (hread : f.read.isOk = true) :
    ∃ c, (test_file_path pp f.name, c) ∈ (cli_process_project pp dirs st).writes := by
  induction dirs generalizing st with
  | nil => exact absurd hd (List.not_mem_nil d)
  | cons d0 dirs ih =>
    rcases List.mem_cons.mp hd with rfl | hd'
    · obtain ⟨c, hc⟩ := files_foldl_writes_self pp d.root d.files st f hf hpy hread
      exact ⟨c, dirs_foldl_writes_mono pp dirs _ _ hc⟩
    · exact ih _ hd'

/-- A concrete run for the C5 witness: the model call fails on the first
file `a.py` and succeeds on the second file `b.py`. -/
def demoRun : List CliDir :=
  [⟨str ".",
    [⟨str "a.py", .ok (str "A = 1"), .error (str "connection refused")⟩,
     ⟨str "b.py", .ok (str "B = 2"), .ok (str "assert True")⟩]⟩]

/-- Witness for C5: in `demoRun`, where the model call for `a.py` raises,
the later file `b.py` is still processed and written. -/
theorem failure_does_not_stop_run_witness :
    ∃ c, (test_file_path (str "proj") (str "b.py"), c) ∈
      (cli_process_project (str "proj") demoRun st0).writes :=
  failure_does_not_stop_run (str "proj") demoRun st0
    ⟨str ".", [⟨str "a.py", .ok (str "A = 1"), .error (str "connection refused")⟩,
      ⟨str "b.py", .ok (str "B = 2"), .ok (str "assert True")⟩]⟩
    ⟨str "b.py", .ok (str "B = 2"), .ok (str "assert True")⟩
    (by decide) (by decide) (by decide) (by decide)

/-! ## Claim C6: a missing project path causes no writes and one error -/

/-- C6: for every command (`generate-tests`, `generate-docs` and
`validate-tests`), a non-existent project path makes the command return
without any filesystem effect: no directory is created, no file is
written, and exactly one error line naming the missing path is logged.
For `validate-tests` the existence check is on `<project_path>/tests`;
since no child of a non-existent path exists, a missing project path
makes that check false, and the single logged error names the missing
tests path (and nothing is printed). -/
theorem missing_path_no_side_effects (project_path : Str) (dirs : List CliDir)
    (cfgCall : Except Str Str) (mdirs : List MdDir)
    (pytestRun : Str → ValidationResult) (st : St) :
    ((generate_tests_cli project_path false dirs cfgCall st).writes = st.writes ∧
     (generate_tests_cli project_path false dirs cfgCall st).mkdirs = st.mkdirs ∧
     (generate_tests_cli project_path false dirs cfgCall st).errors =
       st.errors ++ [str "Path " ++ project_path ++ str " does not exist."]) ∧
    ((generate_docs_cli project_path false mdirs st).writes = st.writes ∧
     (generate_docs_cli project_path false mdirs st).mkdirs = st.mkdirs ∧
     (generate_docs_cli project_path false mdirs st).errors =
       st.errors ++ [str "Path " ++ project_path ++ str " does not exist."]) ∧
    ((validate_tests_cli project_path false pytestRun st).1.writes = st.writes ∧
     (validate_tests_cli project_path false pytestRun st).1.mkdirs = st.mkdirs ∧
     (validate_tests_cli project_path false pytestRun st).1.errors =
       st.errors ++ [str "Tests folder " ++ pathJoin project_path (str "tests") ++
         str " does not exist."] ∧
     (validate_tests_cli project_path false pytestRun st).2 = []) := by
  simp [generate_tests_cli, generate_docs_cli, validate_tests_cli]

/-! ## Claim C7: dispatcher behaviour on missing or unknown commands -/

/-- C7 counterexample: an unknown command name does not print help and
return normally; argparse rejects the invalid choice and exits with status
2 before any handler runs. -/
theorem unknown_command_exits_with_error :
    cli_main (some (str "frobnicate")) (str "proj") = DispatchResult.usageError 2 ∧
    DispatchResult.usageError 2 ≠ DispatchResult.printedHelp := by decide

/-- C7 as amended: with *no* command, both dispatchers print usage help
and return without error and without running any handler; with an
*unknown* command name, argument parsing fails and the process exits with
the usage-error status 2, again without running any handler. -/
theorem dispatcher_help_and_usage_error (p c : Str)
    (hc1 : c ≠ str "generate-tests") (hc2 : c ≠ str "validate-tests")
    (hc3 : c ≠ str "generate-docs") :
    cli_main none p = DispatchResult.printedHelp ∧
    markd_main none p = DispatchResult.printedHelp ∧
    cli_main (some c) p = DispatchResult.usageError 2 ∧
    markd_main (some c) p = DispatchResult.usageError 2 := by
  refine ⟨rfl, rfl, ?_, ?_⟩
  · rw [cli_main, if_pos ⟨hc1, hc2⟩]
  · rw [markd_main, if_pos hc3]

/-- Witness for the amended C7 at the concrete command `frobnicate`. -/
theorem dispatcher_help_and_usage_error_witness :
    cli_main none (str "proj") = DispatchResult.printedHelp ∧
    markd_main none (str "proj") = DispatchResult.printedHelp ∧
    cli_main (some (str "frobnicate")) (str "proj") = DispatchResult.usageError 2 ∧
    markd_main (some (str "frobnicate")) (str "proj") = DispatchResult.usageError 2 :=
  dispatcher_help_and_usage_error (str "proj") (str "frobnicate")
    (by decide) (by decide) (by decide)

/-! ## Claims C8 and C10: the shape of the aggregate document -/

theorem section_marker_self (x : Str) :
    (str "### ").isPrefixOf (str "### " ++ x) = true := by
  simp [str, List.isPrefixOf]

theorem section_marker_not_on_dir_heading (x : Str) :
    (str "### ").isPrefixOf (str "## Directory: " ++ x) = false := rfl

theorem section_marker_not_on_error_entry (x : Str) :
    (str "### ").isPrefixOf (str "Error: " ++ x) = false := rfl

theorem dir_marker_self (x : Str) :
    (str "## Directory: ").isPrefixOf (str "## Directory: " ++ x) = true := by
  simp [str, List.isPrefixOf]

theorem dir_marker_not_on_section (x : Str) :
    (str "## Directory: ").isPrefixOf (str "### " ++ x) = false := rfl

theorem dir_marker_not_on_error_entry (x : Str) :
    (str "## Directory: ").isPrefixOf (str "Error: " ++ x) = false := rfl

/-- The `.py` files of a file listing, in listing order. -/
def pyFilesList : List MdFile → List MdFile
  | [] => []
  | f :: fs =>
    if (str ".py").isSuffixOf f.name then f :: pyFilesList fs else pyFilesList fs

/-- The `.py` files of a whole traversal, in traversal order. -/
def pyFilesOf : List MdDir → List MdFile
  | [] => []
  | d :: ds => pyFilesList d.files ++ pyFilesOf ds

/-- The headed section the aggregate document contains for one file when
its model call succeeded. -/
def mdSection (f : MdFile) : Str :=
  str "### " ++ f.name ++ str "\n\n" ++ clean_code (okText f.modelCall) ++ str "\n"

theorem mdFilesEntries_filter_section (fs : List MdFile)
    (hread : ∀ f ∈ fs, f.read.isOk = true)
    (hmodel : ∀ f ∈ fs, f.modelCall.isOk = true) :
    (mdFilesEntries fs).filter (fun s => (str "### ").isPrefixOf s) =
      (pyFilesList fs).map mdSection := by
  induction fs with
  | nil => rfl
  | cons f fs ih =>
    have hread' : ∀ g ∈ fs, g.read.isOk = true :=
      fun g hg => hread g (List.mem_cons_of_mem f hg)
    have hmodel' : ∀ g ∈ fs, g.modelCall.isOk = true :=
      fun g hg => hmodel g (List.mem_cons_of_mem f hg)
    rw [mdFilesEntries, List.filter_append, ih hread' hmodel', pyFilesList]
    by_cases hpy : (str ".py").isSuffixOf f.name = true
    · rw [if_pos hpy, mdFileEntries, if_pos hpy]
      match hr : f.read with
      | .error e =>
        have := hread f (List.mem_cons_self f fs)
        rw [hr] at this
        simp [Except.isOk, Except.toBool] at this
      | .ok code =>
        match hm : f.modelCall with
        | .error e =>
          have := hmodel f (List.mem_cons_self f fs)
          rw [hm] at this
          simp [Except.isOk, Except.toBool] at this
        | .ok resp =>
          rw [List.map_cons]
          have hsec : mdSection f =
              str "### " ++ (f.name ++ str "\n\n" ++ clean_code resp ++ str "\n") := by
            rw [mdSection, hm]
            simp [okText, List.append_assoc]
          have hdoc : generate_markdown_document (Except.ok resp) f.name =
              str "### " ++ (f.name ++ str "\n\n" ++ clean_code resp ++ str "\n") := by
            simp [generate_markdown_document, List.append_assoc]
          rw [List.filter_cons, hdoc, section_marker_self, hsec]
          simp
    · rw [if_neg hpy, mdFileEntries, if_neg hpy]
      simp

theorem project_summary_filter_section (dirs : List MdDir)
    (hread : ∀ d ∈ dirs, ∀ f ∈ d.files, f.read.isOk = true)
    (hmodel : ∀ d ∈ dirs, ∀ f ∈ d.files, f.modelCall.isOk = true) :
    (project_summary dirs).filter (fun s => (str "### ").isPrefixOf s) =
      (pyFilesOf dirs).map mdSection := by
  induction dirs with
  | nil => rfl
  | cons d ds ih =>
    have h1 : ∀ f ∈ d.files, f.read.isOk = true :=
      hread d (List.mem_cons_self d ds)
    have h2 : ∀ f ∈ d.files, f.modelCall.isOk = true :=
      hmodel d (List.mem_cons_self d ds)
    have hread' : ∀ d' ∈ ds, ∀ f ∈ d'.files, f.read.isOk = true :=
      fun d' hd' => hread d' (List.mem_cons_of_mem d hd')
    have hmodel' : ∀ d' ∈ ds, ∀ f ∈ d'.files, f.modelCall.isOk = true :=
      fun d' hd' => hmodel d' (List.mem_cons_of_mem d hd')
    rw [project_summary, pyFilesOf, List.filter_append, ih hread' hmodel',
      mdDirEntries, List.filter_cons]
    rw [show (str "## Directory: " ++ d.root ++ str "\n") =
        str "## Directory: " ++ (d.root ++ str "\n") from List.append_assoc _ _ _,
      section_marker_not_on_dir_heading]
    rw [mdFilesEntries_filter_section d.files h1 h2, List.map_append]
    simp

/-- C8 as amended: provided every file read and every model call in the
run succeeds, doc generation performs exactly one write, to
`<project>/docs/project_documentation.md`, whose content is the
newline-join of the summary; and the section-headed entries of that
summary are exactly one `"### <file name>"` section per Python source
file, in traversal order. -/
theorem doc_one_section_per_py_file (pp : Str) (dirs : List MdDir) (st : St)
    (hread : ∀ d ∈ dirs, ∀ f ∈ d.files, f.read.isOk = true)
    (hmodel : ∀ d ∈ dirs, ∀ f ∈ d.files, f.modelCall.isOk = true) :
    (md_process_project pp dirs st).writes =
      st.writes ++ [(docs_file_path pp, joinNl (project_summary dirs))] ∧
    (project_summary dirs).filter (fun s => (str "### ").isPrefixOf s) =
      (pyFilesOf dirs).map mdSection :=
  ⟨by simp [md_process_project, save_markdown_document],
    project_summary_filter_section dirs hread hmodel⟩

/-- A one-file project whose model call raises, for the C8 counterexample. -/
def demoDocs : List MdDir :=
  [⟨str ".", [⟨str "a.py", .ok (str "x = 1"), .error (str "boom")⟩]⟩]

/-- C8 counterexample: when the model call for `a.py` raises, the written
aggregate document contains no section headed by that file's name at all
(the placeholder `"Error: boom"` is appended headless instead), so the
document does not contain one headed section per Python source file. -/
theorem doc_missing_section_on_model_error :
    (md_process_project (str "proj") demoDocs st0).writes =
      [(docs_file_path (str "proj"), str "## Directory: .\n\nError: boom")] ∧
    ¬ List.IsInfix (str "### a.py") (str "## Directory: .\n\nError: boom") ∧
    (pyFilesOf demoDocs).length = 1 := by decide

/-- A one-file project where read and model call succeed, for the C8
witness. -/
def demoDocsOk : List MdDir :=
  [⟨str ".", [⟨str "a.py", .ok (str "x = 1"), .ok (str "doc of a")⟩]⟩]

/-- Witness for the amended C8 at the concrete project `demoDocsOk`. -/
theorem doc_one_section_per_py_file_witness :
    (md_process_project (str "proj") demoDocsOk st0).writes =
      st0.writes ++ [(docs_file_path (str "proj"), joinNl (project_summary demoDocsOk))] ∧
    (project_summary demoDocsOk).filter (fun s => (str "### ").isPrefixOf s) =
      (pyFilesOf demoDocsOk).map mdSection :=
  doc_one_section_per_py_file (str "proj") demoDocsOk st0 (by decide) (by decide)

/-! ## Claim C10: one directory heading per visited directory -/

theorem mdFilesEntries_no_dir_marker (fs : List MdFile) :
    (mdFilesEntries fs).filter (fun s => (str "## Directory: ").isPrefixOf s) = [] := by
  induction fs with
  | nil => rfl
  | cons f fs ih =>
    rw [mdFilesEntries, List.filter_append, ih, List.append_nil, mdFileEntries]
    split
    · match f.read with
      | .error e => rfl
      | .ok code =>
        match f.modelCall with
        | .error e =>
          rw [List.filter_cons]
          rw [show generate_markdown_document (Except.error e) f.name =
              str "Error: " ++ e from rfl, dir_marker_not_on_error_entry]
          rfl
        | .ok resp =>
          have hdoc2 : generate_markdown_document (Except.ok resp) f.name =
              str "### " ++ (f.name ++ str "\n\n" ++ clean_code resp ++ str "\n") := by
            simp [generate_markdown_document, List.append_assoc]
          rw [List.filter_cons, hdoc2, dir_marker_not_on_section]
          rfl
    · rfl

theorem project_summary_filter_dirs (dirs : List MdDir) :
    (project_summary dirs).filter (fun s => (str "## Directory: ").isPrefixOf s) =
      dirs.map (fun d => str "## Directory: " ++ d.root ++ str "\n") := by
  induction dirs with
  | nil => rfl
  | cons d ds ih =>
    rw [project_summary, List.filter_append, ih, mdDirEntries, List.filter_cons]
    rw [show (str "## Directory: " ++ d.root ++ str "\n") =
        str "## Directory: " ++ (d.root ++ str "\n") from List.append_assoc _ _ _,
      dir_marker_self]
    rw [mdFilesEntries_no_dir_marker, List.map_cons]
    simp

/-- C10: for every project and traversal, the aggregate documentation is
written as one file whose content is the newline-join of the summary, and
the summary contains exactly one `"## Directory: <relative path>"` heading
per directory visited during traversal, in order — including directories
with no Python source files (the heading is appended before any file is
examined). -/
theorem doc_heading_per_visited_directory (pp : Str) (dirs : List MdDir) (st : St) :
    (md_process_project pp dirs st).writes =
      st.writes ++ [(docs_file_path pp, joinNl (project_summary dirs))] ∧
    (project_summary dirs).filter (fun s => (str "## Directory: ").isPrefixOf s) =
      dirs.map (fun d => str "## Directory: " ++ d.root ++ str "\n") :=
  ⟨by simp [md_process_project, save_markdown_document],
    project_summary_filter_dirs dirs⟩

/-! ## Claim C9: output naming across the directory tree -/

/-- Two files both named `x.py`, in the different subdirectories `a` and
`b` of the same tree. -/
def demoCollide : List CliDir :=
  [⟨str "a", [⟨str "x.py", .ok (str "A = 1"), .ok (str "ta")⟩]⟩,
   ⟨str "b", [⟨str "x.py", .ok (str "B = 2"), .ok (str "tb")⟩]⟩]

/-- C9 counterexample: the two distinct input files `a/x.py` and `b/x.py`
are both written to the same output path `proj/tests/test_x.py` (the
output name depends only on the base name), so output naming does collide
across the directory tree. -/
theorem same_name_files_collide :
    (cli_process_project (str "proj") demoCollide st0).writes.map Prod.fst =
      [str "proj/tests/test_x.py", str "proj/tests/test_x.py"] ∧
    ¬ ((cli_process_project (str "proj") demoCollide st0).writes.map Prod.fst).Nodup := by
  decide

/-- C9 as amended: each processed source file produces at most one write
per run, and the output path is a function of the file's base name alone:
files whose stems differ are written to distinct paths, but two files with
the same base name in different subdirectories are written to the same
path (the later overwriting the earlier). -/
theorem one_write_per_file_and_stem_determined (pp dir_root n1 n2 : Str)
    (st : St) (f : FileEntry) (h : splitext_stem n1 ≠ splitext_stem n2) :
    (processFile pp dir_root st f).writes.length ≤ st.writes.length + 1 ∧
    test_file_path pp n1 ≠ test_file_path pp n2 := by
  constructor
  · rw [processFile]
    split
    · match f.read with
      | .error e => simp
      | .ok code =>
        cases hm : f.modelCall <;> simp [generate_test_cases, save_test_cases, hm]
    · exact Nat.le_succ _
  · intro heq
    apply h
    rw [test_file_path, test_file_path, pathJoin, pathJoin] at heq
    have h1 := List.append_cancel_left heq
    have h2 : str "test_" ++ splitext_stem n1 ++ str ".py" =
        str "test_" ++ splitext_stem n2 ++ str ".py" := by
      injection h1
    have h3 := List.append_cancel_right h2
    exact List.append_cancel_left h3

/-- Witness for the amended C9: one concrete file yields one write, and
the distinct stems of `a.py` and `b.py` yield distinct output paths. -/
theorem one_write_per_file_witness :
    (processFile (str "proj") (str ".") st0
        ⟨str "a.py", .ok (str "A = 1"), .ok (str "t")⟩).writes.length ≤
      st0.writes.length + 1 ∧
    test_file_path (str "proj") (str "a.py") ≠ test_file_path (str "proj") (str "b.py") :=
  one_write_per_file_and_stem_determined (str "proj") (str ".") (str "a.py") (str "b.py")
    st0 ⟨str "a.py", .ok (str "A = 1"), .ok (str "t")⟩ (by decide)
